import Mathlib

/-!
SWO encoding-mode manager (`src/platforms/common/stm32/swo.c`)

A shallow embedding of the Black Magic Debug SWO management and muxing layer:
the global `swo_current_mode` and the three operations `swo_init`,
`swo_deinit` and `swo_send_buffer`.

The file is a C translation unit whose body depends on the preprocessor
constant `SWO_ENCODING`.  The constant is a field of the environment, and each
`#if` becomes a Boolean test on it, so one definition covers every build.

Calls to functions that live outside the translation unit (the two encoder
implementations and `gdb_outf`) are recorded, in program order, in an event
trace carried by the state.  Writes to `swo_current_mode` are recorded in the
same trace.  Integer arguments (`uint32_t`, `uint8_t`, the device pointer) are
natural numbers; the code only passes them on, so no arithmetic is involved.
-/

namespace Swo

/-- Modelled from the spec: the enumeration `swo_coding_e`, declared in `swo.h`
(not part of the sources at hand).  A closed enumeration with exactly three
values. -/
inductive swo_coding_e where
  | swo_none
  | swo_manchester
  | swo_nrz_uart
  deriving DecidableEq

/-- The two encoder implementations the layer switches between. -/
inductive Variant where
  | manchester
  | nrz_uart
  deriving DecidableEq

/-- Observable events, in the order the C code performs them.  One constructor
per external function called by `swo.c`, plus the write to the global.

* `swo_uart_get_baudrate ret` is a call of the query together with the value it
  returned;
* `gdb_outf value` is the call `gdb_outf("Baudrate: %" PRIu32 " ", value)`;
* `write_mode m` is the assignment `swo_current_mode = m`. -/
inductive Event where
  | swo_manchester_init (itm_stream_bitmask : Nat)
  | swo_manchester_deinit
  | swo_manchester_send_buffer (dev ep : Nat)
  | swo_uart_init (baudrate itm_stream_bitmask : Nat)
  | swo_uart_deinit
  | swo_uart_send_buffer (dev ep : Nat)
  | swo_uart_get_baudrate (ret : Nat)
  | gdb_outf (value : Nat)
  | write_mode (m : swo_coding_e)
  deriving DecidableEq

/-- What the translation unit is compiled and linked against.

* `SWO_ENCODING` is the preprocessor constant (1: Manchester only, 2: UART/NRZ
  only, 3: both);
* `swo_uart_get_baudrate` gives the value the external query returns, as a
  function of everything that has happened so far.  Quantifying over this
  function covers every deterministic behaviour of the UART implementation. -/
structure Env where
  SWO_ENCODING : Nat
  swo_uart_get_baudrate : List Event → Nat

/-- The global `swo_current_mode` together with the events performed so far
(oldest first). -/
structure State where
  swo_current_mode : swo_coding_e
  trace : List Event

/-- State at boot: the global is zero-filled, which is `swo_none`, and nothing
has happened yet. -/
def State.boot : State := ⟨swo_coding_e.swo_none, []⟩

/-- Perform an external call: append it to the trace.  The external functions
are assumed not to assign `swo_current_mode`. -/
def State.call (s : State) (e : Event) : State :=
  ⟨s.swo_current_mode, s.trace ++ [e]⟩

/-- The assignment `swo_current_mode = m`. -/
def State.assign (s : State) (m : swo_coding_e) : State :=
  ⟨m, s.trace ++ [Event.write_mode m]⟩

/-- Embedding of `void swo_deinit(void)`. -/
def swo_deinit (env : Env) (s : State) : State :=
  -- #if SWO_ENCODING == 1 || SWO_ENCODING == 3
  let s1 :=
    if (env.SWO_ENCODING == 1 || env.SWO_ENCODING == 3)
        && s.swo_current_mode == swo_coding_e.swo_manchester then
      s.call Event.swo_manchester_deinit
    else s
  -- #if SWO_ENCODING == 2 || SWO_ENCODING == 3
  let s2 :=
    if (env.SWO_ENCODING == 2 || env.SWO_ENCODING == 3)
        && s1.swo_current_mode == swo_coding_e.swo_nrz_uart then
      s1.call Event.swo_uart_deinit
    else s1
  s2.assign swo_coding_e.swo_none

/-- Embedding of
`void swo_init(swo_coding_e swo_mode, uint32_t baudrate, uint32_t itm_stream_bitmask)`. -/
def swo_init (env : Env) (swo_mode : swo_coding_e) (baudrate itm_stream_bitmask : Nat)
    (s : State) : State :=
  -- Make sure any existing SWO capture is first spun down
  let s1 := if s.swo_current_mode != swo_coding_e.swo_none then swo_deinit env s else s
  -- #if SWO_ENCODING == 1 || SWO_ENCODING == 3
  let s2 :=
    if (env.SWO_ENCODING == 1 || env.SWO_ENCODING == 3)
        && swo_mode == swo_coding_e.swo_manchester then
      s1.call (Event.swo_manchester_init itm_stream_bitmask)
    else s1
  -- #if SWO_ENCODING == 2 || SWO_ENCODING == 3
  let s3 :=
    if (env.SWO_ENCODING == 2 || env.SWO_ENCODING == 3)
        && swo_mode == swo_coding_e.swo_nrz_uart then
      let a := s2.call (Event.swo_uart_init baudrate itm_stream_bitmask)
      let ret := env.swo_uart_get_baudrate a.trace
      let b := a.call (Event.swo_uart_get_baudrate ret)
      b.call (Event.gdb_outf ret)
    else s2
  -- Make a note of which mode we initialised into
  s3.assign swo_mode

/-- Embedding of `void swo_send_buffer(usbd_device *dev, uint8_t ep)`. -/
def swo_send_buffer (env : Env) (dev ep : Nat) (s : State) : State :=
  -- #if SWO_ENCODING == 1 || SWO_ENCODING == 3
  let s1 :=
    if (env.SWO_ENCODING == 1 || env.SWO_ENCODING == 3)
        && s.swo_current_mode == swo_coding_e.swo_manchester then
      s.call (Event.swo_manchester_send_buffer dev ep)
    else s
  -- #if SWO_ENCODING == 2 || SWO_ENCODING == 3
  if (env.SWO_ENCODING == 2 || env.SWO_ENCODING == 3)
      && s1.swo_current_mode == swo_coding_e.swo_nrz_uart then
    s1.call (Event.swo_uart_send_buffer dev ep)
  else s1

/-! Vocabulary of the specification. -/

/-- The build licenses a Variant when the `#if` guarding its calls is true. -/
def licenses (enc : Nat) : Variant → Bool
  | Variant.manchester => enc == 1 || enc == 3
  | Variant.nrz_uart => enc == 2 || enc == 3

/-- The Variant a mode names; `swo_none` names no Variant. -/
def swo_coding_e.variant : swo_coding_e → Option Variant
  | swo_coding_e.swo_none => none
  | swo_coding_e.swo_manchester => some Variant.manchester
  | swo_coding_e.swo_nrz_uart => some Variant.nrz_uart

/-- The Variant whose primitive an event calls; `none` for the log sink and for
writes to the global. -/
def Event.variant : Event → Option Variant
  | Event.swo_manchester_init _ => some Variant.manchester
  | Event.swo_manchester_deinit => some Variant.manchester
  | Event.swo_manchester_send_buffer _ _ => some Variant.manchester
  | Event.swo_uart_init _ _ => some Variant.nrz_uart
  | Event.swo_uart_deinit => some Variant.nrz_uart
  | Event.swo_uart_send_buffer _ _ => some Variant.nrz_uart
  | Event.swo_uart_get_baudrate _ => some Variant.nrz_uart
  | Event.gdb_outf _ => none
  | Event.write_mode _ => none

/-- The Variant an event brings up, when the event is an init call. -/
def Event.initOf : Event → Option Variant
  | Event.swo_manchester_init _ => some Variant.manchester
  | Event.swo_uart_init _ _ => some Variant.nrz_uart
  | _ => none

/-- The deinit primitive of a Variant. -/
def Variant.deinit : Variant → Event
  | Variant.manchester => Event.swo_manchester_deinit
  | Variant.nrz_uart => Event.swo_uart_deinit

/-- The init call of a Variant for the arguments of `swo_init`: Manchester takes
the mask only, UART takes the baud rate and the mask. -/
def Variant.init : Variant → Nat → Nat → Event
  | Variant.manchester, _, itm_stream_bitmask => Event.swo_manchester_init itm_stream_bitmask
  | Variant.nrz_uart, baudrate, itm_stream_bitmask =>
      Event.swo_uart_init baudrate itm_stream_bitmask

/-- The events an operation `f` performs when run in state `s`: what it appends
to the trace. -/
def emitted (f : State → State) (s : State) : List Event :=
  (f s).trace.drop s.trace.length

/-- The calls among some events: everything but writes to the global. -/
def calls (t : List Event) : List Event :=
  t.filter fun e => match e with
    | Event.write_mode _ => false
    | _ => true

/-- The Variant calls among some events: calls of an encoder primitive. -/
def variantCalls (t : List Event) : List Event :=
  t.filter fun e => e.variant.isSome

/-! Closed forms of what each operation appends to the trace.  They are proved
equal to the behaviour of the embedded code below and serve the proofs only. -/

/-- The events `swo_deinit` performs before the final write. -/
def deinitCalls (enc : Nat) (m : swo_coding_e) : List Event :=
  match m.variant with
  | some v => if licenses enc v then [v.deinit] else []
  | none => []

/-- The events the spin-down at the head of `swo_init` performs. -/
def stopEvents (enc : Nat) (m : swo_coding_e) : List Event :=
  match m with
  | swo_coding_e.swo_none => []
  | m => deinitCalls enc m ++ [Event.write_mode swo_coding_e.swo_none]

/-- The events the bring-up part of `swo_init` performs after history `hist`. -/
def startEvents (env : Env) (r : swo_coding_e) (baud mask : Nat) (hist : List Event) :
    List Event :=
  match r with
  | swo_coding_e.swo_none => []
  | swo_coding_e.swo_manchester =>
      if licenses env.SWO_ENCODING Variant.manchester then [Event.swo_manchester_init mask] else []
  | swo_coding_e.swo_nrz_uart =>
      if licenses env.SWO_ENCODING Variant.nrz_uart then
        [Event.swo_uart_init baud mask,
         Event.swo_uart_get_baudrate
           (env.swo_uart_get_baudrate (hist ++ [Event.swo_uart_init baud mask])),
         Event.gdb_outf (env.swo_uart_get_baudrate (hist ++ [Event.swo_uart_init baud mask]))]
      else []

/-- The call `swo_send_buffer` forwards, if any. -/
def sendCalls (enc : Nat) (m : swo_coding_e) (dev ep : Nat) : List Event :=
  match m with
  | swo_coding_e.swo_none => []
  | swo_coding_e.swo_manchester =>
      if licenses enc Variant.manchester then [Event.swo_manchester_send_buffer dev ep] else []
  | swo_coding_e.swo_nrz_uart =>
      if licenses enc Variant.nrz_uart then [Event.swo_uart_send_buffer dev ep] else []

/-! Call sequences and ownership tracking. -/

/-- The public operations, as data, so that call sequences can be quantified over. -/
inductive Call where
  | swo_init (swo_mode : swo_coding_e) (baudrate itm_stream_bitmask : Nat)
  | swo_deinit
  | swo_send_buffer (dev ep : Nat)
  deriving DecidableEq

/-- Perform one call. -/
def Call.run (env : Env) : Call → State → State
  | Call.swo_init swo_mode baudrate itm_stream_bitmask =>
      Swo.swo_init env swo_mode baudrate itm_stream_bitmask
  | Call.swo_deinit => Swo.swo_deinit env
  | Call.swo_send_buffer dev ep => Swo.swo_send_buffer env dev ep

/-- Perform a sequence of calls, first to last. -/
def runCalls (env : Env) (cs : List Call) (s : State) : State :=
  cs.foldl (fun st c => c.run env st) s

/-- One step of ownership tracking for Variant `v`: its init brings it up, its
deinit takes it down, any other event leaves it as it was. -/
def upStep (v : Variant) (up : Bool) (e : Event) : Bool :=
  if e.initOf = some v then true else if e = v.deinit then false else up

/-- Whether Variant `v` is brought up after the events `t`, starting with
nothing brought up. -/
def isUp (t : List Event) (v : Variant) : Bool :=
  t.foldl (upStep v) false

/-- No init call is issued while a Variant is brought up. -/
def InitsWhenIdle (t : List Event) : Prop :=
  ∀ pre e suf, t = pre ++ e :: suf → e.initOf.isSome = true → ∀ w, isUp pre w = false

/-- Invariant of the dispatcher: a brought-up Variant is licensed and named by
`swo_current_mode`, and so far every init was issued with nothing brought up. -/
def Inv (env : Env) (s : State) : Prop :=
  (∀ v, isUp s.trace v = true →
      s.swo_current_mode.variant = some v ∧ licenses env.SWO_ENCODING v = true)
    ∧ InitsWhenIdle s.trace

/-- The mode a Variant call establishes: an init establishes the mode of its
Variant, a deinit establishes `swo_none`. -/
def Event.establishes : Event → Option swo_coding_e
  | Event.swo_manchester_init _ => some swo_coding_e.swo_manchester
  | Event.swo_uart_init _ _ => some swo_coding_e.swo_nrz_uart
  | Event.swo_manchester_deinit => some swo_coding_e.swo_none
  | Event.swo_uart_deinit => some swo_coding_e.swo_none
  | _ => none

/-- Every init or deinit call in `t` has a write of the mode it establishes
after it and none before it, given that the events `seen` precede `t`. -/
def WrittenAfter (seen t : List Event) : Prop :=
  ∀ pre e suf m, t = pre ++ e :: suf → e.establishes = some m →
    Event.write_mode m ∉ seen ++ pre ∧ Event.write_mode m ∈ suf

/-! Behaviour of the three operations, in closed form. -/

theorem swo_deinit_mode (env : Env) (s : State) :
    (swo_deinit env s).swo_current_mode = swo_coding_e.swo_none := by
  simp [swo_deinit, State.assign]

theorem swo_deinit_trace (env : Env) (s : State) :
    (swo_deinit env s).trace =
      s.trace ++ (deinitCalls env.SWO_ENCODING s.swo_current_mode
        ++ [Event.write_mode swo_coding_e.swo_none]) := by
  obtain ⟨m, t⟩ := s
  generalize hm : (env.SWO_ENCODING == 1 || env.SWO_ENCODING == 3) = bm
  generalize hu : (env.SWO_ENCODING == 2 || env.SWO_ENCODING == 3) = bu
  cases m <;> cases bm <;> cases bu <;>
    simp [swo_deinit, State.assign, State.call, deinitCalls, swo_coding_e.variant, licenses,
      Variant.deinit, hm, hu]

theorem swo_init_mode (env : Env) (r : swo_coding_e) (baud mask : Nat) (s : State) :
    (swo_init env r baud mask s).swo_current_mode = r := by
  simp [swo_init, State.assign]

theorem swo_init_trace (env : Env) (r : swo_coding_e) (baud mask : Nat) (s : State) :
    (swo_init env r baud mask s).trace =
      s.trace ++ (stopEvents env.SWO_ENCODING s.swo_current_mode
        ++ (startEvents env r baud mask (s.trace ++ stopEvents env.SWO_ENCODING s.swo_current_mode)
        ++ [Event.write_mode r])) := by
  obtain ⟨m, t⟩ := s
  generalize hm : (env.SWO_ENCODING == 1 || env.SWO_ENCODING == 3) = bm
  generalize hu : (env.SWO_ENCODING == 2 || env.SWO_ENCODING == 3) = bu
  cases m <;> cases r <;> cases bm <;> cases bu <;>
    simp [swo_init, swo_deinit, State.assign, State.call, deinitCalls, stopEvents, startEvents,
      swo_coding_e.variant, licenses, Variant.deinit, hm, hu]

theorem swo_send_buffer_mode (env : Env) (dev ep : Nat) (s : State) :
    (swo_send_buffer env dev ep s).swo_current_mode = s.swo_current_mode := by
  unfold swo_send_buffer
  simp only [State.call]
  split_ifs <;> rfl

theorem swo_send_buffer_trace (env : Env) (dev ep : Nat) (s : State) :
    (swo_send_buffer env dev ep s).trace =
      s.trace ++ sendCalls env.SWO_ENCODING s.swo_current_mode dev ep := by
  obtain ⟨m, t⟩ := s
  generalize hm : (env.SWO_ENCODING == 1 || env.SWO_ENCODING == 3) = bm
  generalize hu : (env.SWO_ENCODING == 2 || env.SWO_ENCODING == 3) = bu
  cases m <;> cases bm <;> cases bu <;>
    simp [swo_send_buffer, State.call, sendCalls, licenses, hm, hu]

theorem emitted_eq (f : State → State) (s : State) (x : List Event)
    (h : (f s).trace = s.trace ++ x) : emitted f s = x := by
  simp [emitted, h]

theorem first_precedes_inits (d : Event) (hd : d.initOf = none) (t post : List Event)
    (h : t = d :: post) (pre : List Event) (e : Event) (suf : List Event)
    (hsplit : t = pre ++ e :: suf) (he : e.initOf.isSome = true) : d ∈ pre := by
  subst h
  cases pre with
  | nil =>
    simp at hsplit
    rw [hsplit.1] at hd
    simp [hd] at he
  | cons x pre =>
    simp at hsplit
    simp [hsplit.1]

theorem runCalls_append (env : Env) (cs : List Call) (c : Call) (s : State) :
    runCalls env (cs ++ [c]) s = c.run env (runCalls env cs s) := by
  simp [runCalls, List.foldl_append]

theorem isUp_append (t u : List Event) (v : Variant) :
    isUp (t ++ u) v = u.foldl (upStep v) (isUp t v) := by
  simp [isUp, List.foldl_append]

theorem initsWhenIdle_append {t u : List Event} (ht : InitsWhenIdle t)
    (hu : ∀ p e q, u = p ++ e :: q → e.initOf.isSome = true → ∀ w, isUp (t ++ p) w = false) :
    InitsWhenIdle (t ++ u) := by
  intro pre e suf hsplit hinit w
  rcases List.append_eq_append_iff.1 hsplit with ⟨a, h1, h2⟩ | ⟨c, h1, h2⟩
  · rw [h1]
    exact hu a e suf h2 hinit w
  · cases c with
    | nil =>
      simp at h1 h2
      have := hu [] e suf h2.symm hinit w
      simpa [h1] using this
    | cons x c =>
      simp at h2
      rw [← h2.1] at h1
      exact ht pre e c h1 hinit w

theorem initsWhenIdle_append_quiet {t u : List Event} (ht : InitsWhenIdle t)
    (hu : ∀ e ∈ u, e.initOf = none) : InitsWhenIdle (t ++ u) := by
  apply initsWhenIdle_append ht
  intro p e q hsplit hinit
  have : e ∈ u := by rw [hsplit]; simp
  simp [hu e this] at hinit

theorem initsWhenIdle_append_init {t u : List Event} (e0 : Event) (ht : InitsWhenIdle t)
    (hidle : ∀ w, isUp t w = false) (hu : ∀ e ∈ u, e.initOf = none) :
    InitsWhenIdle (t ++ e0 :: u) := by
  apply initsWhenIdle_append ht
  intro p e q hsplit hinit
  cases p with
  | nil => simpa using hidle
  | cons x p =>
    simp at hsplit
    have : e ∈ u := by rw [hsplit.2]; simp
    simp [hu e this] at hinit

theorem idle_after_stop (env : Env) (s : State)
    (h : ∀ v, isUp s.trace v = true →
      s.swo_current_mode.variant = some v ∧ licenses env.SWO_ENCODING v = true)
    (w : Variant) :
    isUp (s.trace ++ stopEvents env.SWO_ENCODING s.swo_current_mode) w = false := by
  obtain ⟨m, t⟩ := s
  have hw := h w
  rw [isUp_append]
  cases hup : isUp t w
  · cases m <;> cases w <;> cases hl : licenses env.SWO_ENCODING Variant.manchester <;>
      cases hl2 : licenses env.SWO_ENCODING Variant.nrz_uart <;>
      simp [stopEvents, deinitCalls, swo_coding_e.variant, upStep, Event.initOf, Variant.deinit,
        hl, hl2]
  · have := hw hup
    cases m <;> cases w <;>
      simp_all [stopEvents, deinitCalls, swo_coding_e.variant, upStep, Event.initOf,
        Variant.deinit]

theorem idle_after_deinit (env : Env) (s : State)
    (h : ∀ v, isUp s.trace v = true →
      s.swo_current_mode.variant = some v ∧ licenses env.SWO_ENCODING v = true)
    (w : Variant) :
    isUp (s.trace ++ (deinitCalls env.SWO_ENCODING s.swo_current_mode
        ++ [Event.write_mode swo_coding_e.swo_none])) w = false := by
  obtain ⟨m, t⟩ := s
  have hw := h w
  rw [isUp_append]
  cases hup : isUp t w
  · cases m <;> cases w <;> cases hl : licenses env.SWO_ENCODING Variant.manchester <;>
      cases hl2 : licenses env.SWO_ENCODING Variant.nrz_uart <;>
      simp [deinitCalls, swo_coding_e.variant, upStep, Event.initOf, Variant.deinit, hl, hl2]
  · have := hw hup
    cases m <;> cases w <;>
      simp_all [deinitCalls, swo_coding_e.variant, upStep, Event.initOf, Variant.deinit]

theorem deinitCalls_no_init (enc : Nat) (m : swo_coding_e) :
    ∀ e ∈ deinitCalls enc m ++ [Event.write_mode swo_coding_e.swo_none], e.initOf = none := by
  cases m <;> cases hl : licenses enc Variant.manchester <;>
    cases hl2 : licenses enc Variant.nrz_uart <;>
    simp [deinitCalls, swo_coding_e.variant, Event.initOf, Variant.deinit, hl, hl2]

theorem stopEvents_no_init (enc : Nat) (m : swo_coding_e) :
    ∀ e ∈ stopEvents enc m, e.initOf = none := by
  cases m <;> cases hl : licenses enc Variant.manchester <;>
    cases hl2 : licenses enc Variant.nrz_uart <;>
    simp [stopEvents, deinitCalls, swo_coding_e.variant, Event.initOf, Variant.deinit, hl, hl2]

theorem sendCalls_inert (enc : Nat) (m : swo_coding_e) (dev ep : Nat) :
    ∀ e ∈ sendCalls enc m dev ep, e.initOf = none ∧ ∀ v : Variant, e ≠ v.deinit := by
  cases m <;> cases hl : licenses enc Variant.manchester <;>
    cases hl2 : licenses enc Variant.nrz_uart <;>
    simp [sendCalls, Event.initOf, hl, hl2] <;> intro v <;> cases v <;> simp [Variant.deinit]

theorem isUp_append_inert (t u : List Event) (v : Variant)
    (hu : ∀ e ∈ u, e.initOf = none ∧ ∀ w : Variant, e ≠ w.deinit) :
    isUp (t ++ u) v = isUp t v := by
  rw [isUp_append]
  generalize isUp t v = b
  induction u generalizing b with
  | nil => rfl
  | cons e u ih =>
    have he := hu e (by simp)
    simp only [List.foldl_cons]
    rw [ih (fun x hx => hu x (by simp [hx]))]
    simp [upStep, he.1, he.2 v]

theorem inv_boot (env : Env) : Inv env State.boot := by
  refine ⟨fun v h => by simp [State.boot, isUp] at h, ?_⟩
  intro pre e suf hsplit
  simp [State.boot] at hsplit

theorem inv_swo_deinit (env : Env) (s : State) (h : Inv env s) : Inv env (swo_deinit env s) := by
  refine ⟨fun v hv => ?_, ?_⟩
  · rw [swo_deinit_trace, idle_after_deinit env s h.1 v] at hv
    cases hv
  · rw [swo_deinit_trace]
    exact initsWhenIdle_append_quiet h.2 (deinitCalls_no_init _ _)

theorem inv_swo_send_buffer (env : Env) (dev ep : Nat) (s : State) (h : Inv env s) :
    Inv env (swo_send_buffer env dev ep s) := by
  refine ⟨fun v hv => ?_, ?_⟩
  · rw [swo_send_buffer_trace, isUp_append_inert _ _ _ (sendCalls_inert _ _ _ _)] at hv
    rw [swo_send_buffer_mode]
    exact h.1 v hv
  · rw [swo_send_buffer_trace]
    exact initsWhenIdle_append_quiet h.2 (fun e he => (sendCalls_inert _ _ _ _ e he).1)

theorem inv_swo_init (env : Env) (r : swo_coding_e) (baud mask : Nat) (s : State)
    (h : Inv env s) : Inv env (swo_init env r baud mask s) := by
  have hidle := idle_after_stop env s h.1
  have hstop : InitsWhenIdle (s.trace ++ stopEvents env.SWO_ENCODING s.swo_current_mode) :=
    initsWhenIdle_append_quiet h.2 (stopEvents_no_init _ _)
  rw [Inv, swo_init_mode, swo_init_trace, ← List.append_assoc]
  generalize s.trace ++ stopEvents env.SWO_ENCODING s.swo_current_mode = hist at hidle hstop
  refine ⟨fun v hv => ?_, ?_⟩
  · rw [isUp_append, hidle v] at hv
    cases r <;> cases v <;> cases hl : licenses env.SWO_ENCODING Variant.manchester <;>
      cases hl2 : licenses env.SWO_ENCODING Variant.nrz_uart <;>
      simp [startEvents, swo_coding_e.variant, upStep, Event.initOf, Variant.deinit, hl, hl2]
        at hv ⊢
  · cases r <;> cases hl : licenses env.SWO_ENCODING Variant.manchester <;>
      cases hl2 : licenses env.SWO_ENCODING Variant.nrz_uart <;>
      simp only [startEvents, hl, hl2, if_true, if_false, List.nil_append, List.cons_append,
        Bool.false_eq_true] <;>
      exact initsWhenIdle_append_init _ hstop hidle (by simp [Event.initOf])

theorem inv_run (env : Env) (c : Call) (s : State) (h : Inv env s) : Inv env (c.run env s) := by
  cases c with
  | swo_init r baud mask => exact inv_swo_init env r baud mask s h
  | swo_deinit => exact inv_swo_deinit env s h
  | swo_send_buffer dev ep => exact inv_swo_send_buffer env dev ep s h

theorem inv_runCalls (env : Env) (cs : List Call) (s : State) (h : Inv env s) :
    Inv env (runCalls env cs s) := by
  induction cs generalizing s with
  | nil => exact h
  | cons c cs ih => exact ih (c.run env s) (inv_run env c s h)

theorem writtenAfter_nil (seen : List Event) : WrittenAfter seen [] := by
  intro pre e suf m h
  simp at h

theorem writtenAfter_cons (seen : List Event) (x : Event) (t : List Event)
    (hx : ∀ m, x.establishes = some m → Event.write_mode m ∉ seen ∧ Event.write_mode m ∈ t)
    (ht : WrittenAfter (seen ++ [x]) t) : WrittenAfter seen (x :: t) := by
  intro pre e suf m h hm
  cases pre with
  | nil =>
    simp at h
    obtain ⟨rfl, rfl⟩ := h
    simpa using hx m hm
  | cons y pre =>
    simp at h
    obtain ⟨rfl, rfl⟩ := h
    have := ht pre e suf m rfl hm
    simpa using this

theorem writtenAfter_swo_init (env : Env) (s : State) (r : swo_coding_e) (baud mask : Nat) :
    WrittenAfter [] (emitted (swo_init env r baud mask) s) := by
  rw [emitted_eq _ _ _ (swo_init_trace env r baud mask s)]
  obtain ⟨m, t⟩ := s
  cases hl : licenses env.SWO_ENCODING Variant.manchester <;>
    cases hl2 : licenses env.SWO_ENCODING Variant.nrz_uart <;>
    cases m <;> cases r <;>
    simp only [stopEvents, startEvents, deinitCalls, swo_coding_e.variant, Variant.deinit, hl, hl2,
      if_true, if_false, List.nil_append, List.cons_append, Bool.false_eq_true] <;>
    repeat (first
      | exact writtenAfter_nil _
      | (refine writtenAfter_cons _ _ _ (by simp [Event.establishes]) ?_
         simp only [List.nil_append, List.cons_append, List.append_assoc]))

theorem writtenAfter_swo_deinit (env : Env) (s : State) :
    WrittenAfter [] (emitted (swo_deinit env) s) := by
  rw [emitted_eq _ _ _ (swo_deinit_trace env s)]
  obtain ⟨m, t⟩ := s
  cases hl : licenses env.SWO_ENCODING Variant.manchester <;>
    cases hl2 : licenses env.SWO_ENCODING Variant.nrz_uart <;>
    cases m <;>
    simp only [deinitCalls, swo_coding_e.variant, Variant.deinit, hl, hl2,
      if_true, if_false, List.nil_append, List.cons_append, Bool.false_eq_true] <;>
    repeat (first
      | exact writtenAfter_nil _
      | (refine writtenAfter_cons _ _ _ (by simp [Event.establishes]) ?_
         simp only [List.nil_append, List.cons_append, List.append_assoc]))

/-! The claims. -/

/-- C1 (break-before-make).  For every build, every state whose active mode names
a licensed Variant `va` and every requested mode naming a licensed Variant `vr`:
the deinit of `va` is the very first event `swo_init` performs (hence the first
Variant call), the init of `vr` comes after it, the deinit occurs exactly once,
and every init call in the trace has that deinit somewhere before it.  With
`SWO_ENCODING = 3`, `va = manchester` and `vr = nrz_uart` this is the scenario
`swo_manchester_deinit` once and strictly before `swo_uart_init`. -/
theorem swo_init_break_before_make (env : Env) (s : State) (r : swo_coding_e)
    (baud mask : Nat) (va vr : Variant)
    (ha : s.swo_current_mode.variant = some va)
    (hla : licenses env.SWO_ENCODING va = true)
    (hr : r.variant = some vr)
    (hlr : licenses env.SWO_ENCODING vr = true) :
    (∃ post, emitted (swo_init env r baud mask) s = va.deinit :: post
        ∧ vr.init baud mask ∈ post)
      ∧ (emitted (swo_init env r baud mask) s).count va.deinit = 1
      ∧ (∀ pre e suf, emitted (swo_init env r baud mask) s = pre ++ e :: suf →
          e.initOf.isSome = true → va.deinit ∈ pre) := by
  have key : ∃ post, emitted (swo_init env r baud mask) s = va.deinit :: post
      ∧ vr.init baud mask ∈ post ∧ va.deinit ∉ post := by
    rw [emitted_eq _ _ _ (swo_init_trace env r baud mask s)]
    obtain ⟨m, t⟩ := s
    cases m <;> cases r <;> cases va <;> cases vr <;>
      simp_all [swo_coding_e.variant, stopEvents, startEvents, deinitCalls, Variant.deinit,
        Variant.init]
  obtain ⟨post, hpost, hin, hnot⟩ := key
  refine ⟨⟨post, hpost, hin⟩, ?_, ?_⟩
  · rw [hpost, List.count_cons_self, List.count_eq_zero_of_not_mem hnot]
  · intro pre e suf hsplit he
    exact first_precedes_inits va.deinit (by cases va <;> rfl) _ post hpost pre e suf hsplit he

/-- Instance of C1: both encodings built in, Manchester active, `swo_init(swo_nrz_uart,
115200, 0x01)` requested. -/
theorem swo_init_break_before_make_witness :
    (State.mk swo_coding_e.swo_manchester []).swo_current_mode.variant = some Variant.manchester
      ∧ licenses 3 Variant.manchester = true
      ∧ swo_coding_e.swo_nrz_uart.variant = some Variant.nrz_uart
      ∧ licenses 3 Variant.nrz_uart = true
      ∧ ((∃ post, emitted (swo_init ⟨3, fun _ => 115200⟩ swo_coding_e.swo_nrz_uart 115200 1)
            ⟨swo_coding_e.swo_manchester, []⟩ = Event.swo_manchester_deinit :: post
            ∧ Event.swo_uart_init 115200 1 ∈ post)
        ∧ (emitted (swo_init ⟨3, fun _ => 115200⟩ swo_coding_e.swo_nrz_uart 115200 1)
            ⟨swo_coding_e.swo_manchester, []⟩).count Event.swo_manchester_deinit = 1
        ∧ (∀ pre e suf, emitted (swo_init ⟨3, fun _ => 115200⟩ swo_coding_e.swo_nrz_uart 115200 1)
            ⟨swo_coding_e.swo_manchester, []⟩ = pre ++ e :: suf →
            e.initOf.isSome = true → Event.swo_manchester_deinit ∈ pre)) :=
  ⟨rfl, rfl, rfl, rfl,
    swo_init_break_before_make ⟨3, fun _ => 115200⟩ ⟨swo_coding_e.swo_manchester, []⟩
      swo_coding_e.swo_nrz_uart 115200 1 Variant.manchester Variant.nrz_uart rfl rfl rfl rfl⟩

/-- C2 (mode after a call sequence).  For every build and every finite sequence of
calls from boot: the mode is one of `swo_none`, `swo_manchester`, `swo_nrz_uart`;
when the last call is `swo_init` the mode is the mode passed to it (whether or
not the build licenses it, so in particular when it does); when the last call is
`swo_deinit` the mode is `swo_none`. -/
theorem mode_after_call_sequence (env : Env) (cs : List Call) :
    ((runCalls env cs State.boot).swo_current_mode = swo_coding_e.swo_none
        ∨ (runCalls env cs State.boot).swo_current_mode = swo_coding_e.swo_manchester
        ∨ (runCalls env cs State.boot).swo_current_mode = swo_coding_e.swo_nrz_uart)
      ∧ (∀ r baud mask,
          (runCalls env (cs ++ [Call.swo_init r baud mask]) State.boot).swo_current_mode = r)
      ∧ (runCalls env (cs ++ [Call.swo_deinit]) State.boot).swo_current_mode
          = swo_coding_e.swo_none := by
  refine ⟨?_, ?_, ?_⟩
  · cases (runCalls env cs State.boot).swo_current_mode <;> simp
  · intro r baud mask
    rw [runCalls_append]
    exact swo_init_mode env r baud mask _
  · rw [runCalls_append]
    exact swo_deinit_mode env _

/-- C3 (single owner).  Track which Variants are brought up along the trace (init
brings up, deinit takes down).  For every build and every finite sequence of
`swo_init`, `swo_deinit` and `swo_send_buffer` calls from boot: at most one
Variant is brought up afterwards; every init call in the whole trace was issued
at a moment when no Variant at all was brought up (so no other one was); and a
Variant that is brought up is the one `swo_current_mode` names. -/
theorem single_owner (env : Env) (cs : List Call) :
    (∀ v w, isUp (runCalls env cs State.boot).trace v = true →
        isUp (runCalls env cs State.boot).trace w = true → v = w)
      ∧ (∀ pre e suf, (runCalls env cs State.boot).trace = pre ++ e :: suf →
          e.initOf.isSome = true → ∀ w, isUp pre w = false)
      ∧ (∀ v, isUp (runCalls env cs State.boot).trace v = true →
          (runCalls env cs State.boot).swo_current_mode.variant = some v) := by
  have h := inv_runCalls env cs State.boot (inv_boot env)
  refine ⟨fun v w hv hw => ?_, h.2, fun v hv => (h.1 v hv).1⟩
  have h1 := (h.1 v hv).1
  have h2 := (h.1 w hw).1
  rw [h1] at h2
  exact Option.some.inj h2

/-- Instance of C3: both encodings built in, Manchester started and then UART
started.  UART is brought up at the end, Manchester is not, and the three
conclusions hold for this run. -/
theorem single_owner_witness :
    isUp (runCalls ⟨3, fun _ => 115200⟩
        [Call.swo_init swo_coding_e.swo_manchester 0 255,
         Call.swo_init swo_coding_e.swo_nrz_uart 115200 1] State.boot).trace
        Variant.nrz_uart = true
      ∧ isUp (runCalls ⟨3, fun _ => 115200⟩
        [Call.swo_init swo_coding_e.swo_manchester 0 255,
         Call.swo_init swo_coding_e.swo_nrz_uart 115200 1] State.boot).trace
        Variant.manchester = false
      ∧ (runCalls ⟨3, fun _ => 115200⟩
        [Call.swo_init swo_coding_e.swo_manchester 0 255,
         Call.swo_init swo_coding_e.swo_nrz_uart 115200 1] State.boot).swo_current_mode.variant
        = some Variant.nrz_uart :=
  ⟨by decide, by decide,
    (single_owner ⟨3, fun _ => 115200⟩
      [Call.swo_init swo_coding_e.swo_manchester 0 255,
       Call.swo_init swo_coding_e.swo_nrz_uart 115200 1]).2.2 Variant.nrz_uart (by decide)⟩

/-- C4 (idempotent stop).  For every build and every state: `swo_deinit` twice
leaves the same mode as `swo_deinit` once, namely `swo_none`; the Variant calls
of the two calls together are those of the first call alone; the second call
performs nothing but the write of `swo_none`, so it issues no Variant call; no
deinit primitive occurs twice; and `swo_deinit` with the mode already `swo_none`
performs nothing but that write and leaves the mode `swo_none`. -/
theorem swo_deinit_idempotent (env : Env) (s : State) (t : List Event) :
    (swo_deinit env (swo_deinit env s)).swo_current_mode
        = (swo_deinit env s).swo_current_mode
      ∧ (swo_deinit env s).swo_current_mode = swo_coding_e.swo_none
      ∧ variantCalls (emitted (fun st => swo_deinit env (swo_deinit env st)) s)
          = variantCalls (emitted (swo_deinit env) s)
      ∧ emitted (swo_deinit env) (swo_deinit env s)
          = [Event.write_mode swo_coding_e.swo_none]
      ∧ variantCalls (emitted (swo_deinit env) (swo_deinit env s)) = []
      ∧ (∀ v : Variant,
          (emitted (fun st => swo_deinit env (swo_deinit env st)) s).count v.deinit ≤ 1)
      ∧ emitted (swo_deinit env) ⟨swo_coding_e.swo_none, t⟩
          = [Event.write_mode swo_coding_e.swo_none]
      ∧ (swo_deinit env ⟨swo_coding_e.swo_none, t⟩).swo_current_mode
          = swo_coding_e.swo_none := by
  have h2 : emitted (swo_deinit env) (swo_deinit env s)
      = [Event.write_mode swo_coding_e.swo_none] := by
    rw [emitted_eq _ _ _ (swo_deinit_trace env (swo_deinit env s)), swo_deinit_mode]
    simp [deinitCalls, swo_coding_e.variant]
  have h12 : emitted (fun st => swo_deinit env (swo_deinit env st)) s
      = deinitCalls env.SWO_ENCODING s.swo_current_mode
        ++ [Event.write_mode swo_coding_e.swo_none, Event.write_mode swo_coding_e.swo_none] := by
    apply emitted_eq
    show (swo_deinit env (swo_deinit env s)).trace = _
    rw [swo_deinit_trace env (swo_deinit env s), swo_deinit_mode, swo_deinit_trace]
    simp [deinitCalls, swo_coding_e.variant]
  refine ⟨by simp [swo_deinit_mode], swo_deinit_mode env s, ?_, h2, ?_, ?_, ?_,
    swo_deinit_mode env _⟩
  · rw [h12, emitted_eq _ _ _ (swo_deinit_trace env s)]
    simp [variantCalls, Event.variant]
  · rw [h2]
    simp [variantCalls, Event.variant]
  · intro v
    rw [h12]
    obtain ⟨m, tr⟩ := s
    cases m <;> cases v <;> cases hl : licenses env.SWO_ENCODING Variant.manchester <;>
      cases hl2 : licenses env.SWO_ENCODING Variant.nrz_uart <;>
      simp [deinitCalls, swo_coding_e.variant, Variant.deinit, hl, hl2]
  · rw [emitted_eq _ _ _ (swo_deinit_trace env _)]
    simp [deinitCalls, swo_coding_e.variant]

/-- C5 (postcondition of start).  For every build, every prior state and every
requested mode, baud rate and mask, `swo_current_mode` equals the requested mode
after `swo_init` returns.  Nothing is assumed about licensing; and when the
requested mode names a Variant the build does not license, the call performs no
init at all, yet the mode still records the request. -/
theorem swo_init_records_requested_mode (env : Env) (s : State) (r : swo_coding_e)
    (baud mask : Nat) :
    (swo_init env r baud mask s).swo_current_mode = r
      ∧ (∀ v, r.variant = some v → licenses env.SWO_ENCODING v = false →
          (∀ e ∈ emitted (swo_init env r baud mask) s, e.initOf = none)
            ∧ (swo_init env r baud mask s).swo_current_mode = r) := by
  have hmode : (swo_init env r baud mask s).swo_current_mode = r := by
    unfold swo_init State.assign
    rfl
  refine ⟨hmode, fun v hv hl => ⟨?_, hmode⟩⟩
  rw [emitted_eq _ _ _ (swo_init_trace env r baud mask s)]
  intro e he
  rw [List.mem_append] at he
  rcases he with he | he
  · exact stopEvents_no_init _ _ e he
  · cases r <;> cases v <;>
      simp_all [swo_coding_e.variant, startEvents, Event.initOf]

/-- Instance of C5: a UART-only build asked for Manchester while UART is active.
The mode becomes `swo_manchester` and no init is performed. -/
theorem swo_init_records_requested_mode_witness :
    (swo_init ⟨2, fun _ => 115200⟩ swo_coding_e.swo_manchester 0 255
        ⟨swo_coding_e.swo_nrz_uart, []⟩).swo_current_mode = swo_coding_e.swo_manchester
      ∧ ∀ e ∈ emitted (swo_init ⟨2, fun _ => 115200⟩ swo_coding_e.swo_manchester 0 255)
          ⟨swo_coding_e.swo_nrz_uart, []⟩, e.initOf = none :=
  ⟨(swo_init_records_requested_mode ⟨2, fun _ => 115200⟩ ⟨swo_coding_e.swo_nrz_uart, []⟩
      swo_coding_e.swo_manchester 0 255).1,
   ((swo_init_records_requested_mode ⟨2, fun _ => 115200⟩ ⟨swo_coding_e.swo_nrz_uart, []⟩
      swo_coding_e.swo_manchester 0 255).2 Variant.manchester rfl rfl).1⟩

/-- C6 (unlicensed request).  In a UART-only build (`SWO_ENCODING = 2`),
`swo_init(swo_manchester, baud, mask)` from mode `swo_none` performs nothing but
the write of `swo_manchester`: no Variant call, and the mode is
`swo_manchester`; a following `swo_send_buffer(dev, ep)` performs nothing.
Symmetrically, in a Manchester-only build (`SWO_ENCODING = 1`),
`swo_init(swo_nrz_uart, baud, mask)` from mode `swo_none` performs nothing but
the write of `swo_nrz_uart`: no init, no baud-rate query, no log line. -/
theorem unlicensed_request (q : List Event → Nat) (t : List Event)
    (baud mask dev ep : Nat) :
    emitted (swo_init ⟨2, q⟩ swo_coding_e.swo_manchester baud mask) ⟨swo_coding_e.swo_none, t⟩
        = [Event.write_mode swo_coding_e.swo_manchester]
      ∧ variantCalls (emitted (swo_init ⟨2, q⟩ swo_coding_e.swo_manchester baud mask)
          ⟨swo_coding_e.swo_none, t⟩) = []
      ∧ (swo_init ⟨2, q⟩ swo_coding_e.swo_manchester baud mask
          ⟨swo_coding_e.swo_none, t⟩).swo_current_mode = swo_coding_e.swo_manchester
      ∧ emitted (swo_send_buffer ⟨2, q⟩ dev ep)
          (swo_init ⟨2, q⟩ swo_coding_e.swo_manchester baud mask ⟨swo_coding_e.swo_none, t⟩)
          = []
      ∧ emitted (swo_init ⟨1, q⟩ swo_coding_e.swo_nrz_uart baud mask) ⟨swo_coding_e.swo_none, t⟩
          = [Event.write_mode swo_coding_e.swo_nrz_uart]
      ∧ calls (emitted (swo_init ⟨1, q⟩ swo_coding_e.swo_nrz_uart baud mask)
          ⟨swo_coding_e.swo_none, t⟩) = []
      ∧ (swo_init ⟨1, q⟩ swo_coding_e.swo_nrz_uart baud mask
          ⟨swo_coding_e.swo_none, t⟩).swo_current_mode = swo_coding_e.swo_nrz_uart := by
  have h2 : emitted (swo_init ⟨2, q⟩ swo_coding_e.swo_manchester baud mask)
      ⟨swo_coding_e.swo_none, t⟩ = [Event.write_mode swo_coding_e.swo_manchester] := by
    rw [emitted_eq _ _ _ (swo_init_trace _ _ _ _ _)]
    simp [stopEvents, startEvents, licenses]
  have h1 : emitted (swo_init ⟨1, q⟩ swo_coding_e.swo_nrz_uart baud mask)
      ⟨swo_coding_e.swo_none, t⟩ = [Event.write_mode swo_coding_e.swo_nrz_uart] := by
    rw [emitted_eq _ _ _ (swo_init_trace _ _ _ _ _)]
    simp [stopEvents, startEvents, licenses]
  refine ⟨h2, ?_, swo_init_mode _ _ _ _ _, ?_, h1, ?_, swo_init_mode _ _ _ _ _⟩
  · rw [h2]
    simp [variantCalls, Event.variant]
  · rw [emitted_eq _ _ _ (swo_send_buffer_trace _ _ _ _), swo_init_mode]
    simp [sendCalls, licenses]
  · rw [h1]
    simp [calls]

/-- C7 (no unlicensed Variant is reached).  For every build constant, every state
(whatever mode is recorded, licensed or not) and all arguments: an event that
`swo_init`, `swo_deinit` or `swo_send_buffer` performs and that calls a
primitive of a Variant (init, deinit, send-buffer, get-baudrate) calls a Variant
the build licenses. -/
theorem never_reaches_unlicensed_variant (env : Env) (s : State) (r : swo_coding_e)
    (baud mask dev ep : Nat) (e : Event) (v : Variant)
    (he : e ∈ emitted (swo_init env r baud mask) s
      ∨ e ∈ emitted (swo_deinit env) s
      ∨ e ∈ emitted (swo_send_buffer env dev ep) s)
    (hv : e.variant = some v) :
    licenses env.SWO_ENCODING v = true := by
  have key : ∀ x ∈ emitted (swo_init env r baud mask) s ++ (emitted (swo_deinit env) s
      ++ emitted (swo_send_buffer env dev ep) s),
      ∀ w, x.variant = some w → licenses env.SWO_ENCODING w = true := by
    rw [emitted_eq _ _ _ (swo_init_trace env r baud mask s),
      emitted_eq _ _ _ (swo_deinit_trace env s),
      emitted_eq _ _ _ (swo_send_buffer_trace env dev ep s)]
    obtain ⟨m, t⟩ := s
    cases hl : licenses env.SWO_ENCODING Variant.manchester <;>
      cases hl2 : licenses env.SWO_ENCODING Variant.nrz_uart <;>
      cases m <;> cases r <;>
      simp [stopEvents, startEvents, deinitCalls, sendCalls, swo_coding_e.variant,
        Variant.deinit, Event.variant, hl, hl2]
  refine key e ?_ v hv
  simp only [List.mem_append]
  tauto

/-- Instance of C7: a UART-only build in which the unlicensed mode
`swo_manchester` is recorded, then `swo_init(swo_nrz_uart, 115200, 0x01)`.  The
call `swo_uart_init(115200, 0x01)` is performed and UART is licensed. -/
theorem never_reaches_unlicensed_variant_witness :
    (Event.swo_uart_init 115200 1
        ∈ emitted (swo_init ⟨2, fun _ => 115200⟩ swo_coding_e.swo_nrz_uart 115200 1)
            ⟨swo_coding_e.swo_manchester, []⟩
      ∨ Event.swo_uart_init 115200 1
        ∈ emitted (swo_deinit ⟨2, fun _ => 115200⟩) ⟨swo_coding_e.swo_manchester, []⟩
      ∨ Event.swo_uart_init 115200 1
        ∈ emitted (swo_send_buffer ⟨2, fun _ => 115200⟩ 7 1) ⟨swo_coding_e.swo_manchester, []⟩)
      ∧ (Event.swo_uart_init 115200 1).variant = some Variant.nrz_uart
      ∧ licenses 2 Variant.nrz_uart = true :=
  ⟨Or.inl (by decide), rfl,
    never_reaches_unlicensed_variant ⟨2, fun _ => 115200⟩ ⟨swo_coding_e.swo_manchester, []⟩
      swo_coding_e.swo_nrz_uart 115200 1 7 1 (Event.swo_uart_init 115200 1) Variant.nrz_uart
      (Or.inl (by decide)) rfl⟩

/-- C8 (no-op before first start).  For every build and every `dev` and `ep`,
`swo_send_buffer(dev, ep)` called while the mode is `swo_none` performs nothing
at all, so in particular no Variant call; this covers the state at boot, before
any `swo_init`, which the call leaves exactly as it was. -/
theorem swo_send_buffer_noop_when_none (env : Env) (dev ep : Nat) (t : List Event) :
    emitted (swo_send_buffer env dev ep) ⟨swo_coding_e.swo_none, t⟩ = []
      ∧ variantCalls (emitted (swo_send_buffer env dev ep) ⟨swo_coding_e.swo_none, t⟩) = []
      ∧ emitted (swo_send_buffer env dev ep) State.boot = []
      ∧ (swo_send_buffer env dev ep State.boot).trace = []
      ∧ (swo_send_buffer env dev ep State.boot).swo_current_mode = swo_coding_e.swo_none := by
  have h : ∀ u, emitted (swo_send_buffer env dev ep) ⟨swo_coding_e.swo_none, u⟩ = [] := by
    intro u
    rw [emitted_eq _ _ _ (swo_send_buffer_trace _ _ _ _)]
    simp [sendCalls]
  refine ⟨h t, ?_, h [], ?_, ?_⟩
  · rw [h t]
    simp [variantCalls]
  · rw [swo_send_buffer_trace]
    simp [State.boot, sendCalls]
  · rw [swo_send_buffer_mode]
    rfl

/-- C9, as stated, fails: in a UART-only build (`SWO_ENCODING = 2`) the mode
`swo_manchester` is reached by `swo_init(swo_manchester, 0, 0)` from boot, and
`swo_send_buffer(7, 1)` then performs nothing, not the one call
`swo_manchester_send_buffer(7, 1)`.  Likewise in a Manchester-only build with
mode `swo_nrz_uart`. -/
theorem swo_send_buffer_forwarding_counterexample :
    (swo_init ⟨2, fun _ => 0⟩ swo_coding_e.swo_manchester 0 0 State.boot).swo_current_mode
        = swo_coding_e.swo_manchester
      ∧ emitted (swo_send_buffer ⟨2, fun _ => 0⟩ 7 1)
          (swo_init ⟨2, fun _ => 0⟩ swo_coding_e.swo_manchester 0 0 State.boot) = []
      ∧ emitted (swo_send_buffer ⟨2, fun _ => 0⟩ 7 1)
          (swo_init ⟨2, fun _ => 0⟩ swo_coding_e.swo_manchester 0 0 State.boot)
          ≠ [Event.swo_manchester_send_buffer 7 1]
      ∧ (swo_init ⟨1, fun _ => 0⟩ swo_coding_e.swo_nrz_uart 0 0 State.boot).swo_current_mode
        = swo_coding_e.swo_nrz_uart
      ∧ emitted (swo_send_buffer ⟨1, fun _ => 0⟩ 7 1)
          (swo_init ⟨1, fun _ => 0⟩ swo_coding_e.swo_nrz_uart 0 0 State.boot)
          ≠ [Event.swo_uart_send_buffer 7 1] := by
  decide

/-- C9, amended (pure forwarding).  For every build, state, `dev` and `ep`: when
the mode names a Variant the build licenses, `swo_send_buffer(dev, ep)` performs
exactly one event, the send-buffer call of that Variant with the same `dev` and
`ep` (`swo_manchester_send_buffer` for `swo_manchester`, `swo_uart_send_buffer`
for `swo_nrz_uart`); when the mode is `swo_none`, or names a Variant the build
does not license, it performs nothing. -/
theorem swo_send_buffer_forwarding (env : Env) (s : State) (dev ep : Nat) :
    (s.swo_current_mode = swo_coding_e.swo_manchester →
        licenses env.SWO_ENCODING Variant.manchester = true →
        emitted (swo_send_buffer env dev ep) s = [Event.swo_manchester_send_buffer dev ep])
      ∧ (s.swo_current_mode = swo_coding_e.swo_nrz_uart →
        licenses env.SWO_ENCODING Variant.nrz_uart = true →
        emitted (swo_send_buffer env dev ep) s = [Event.swo_uart_send_buffer dev ep])
      ∧ (s.swo_current_mode = swo_coding_e.swo_none →
        emitted (swo_send_buffer env dev ep) s = [])
      ∧ (∀ v, s.swo_current_mode.variant = some v → licenses env.SWO_ENCODING v = false →
        emitted (swo_send_buffer env dev ep) s = []) := by
  rw [emitted_eq _ _ _ (swo_send_buffer_trace env dev ep s)]
  obtain ⟨m, t⟩ := s
  refine ⟨?_, ?_, ?_, ?_⟩
  · intro hm hl
    simp only at hm
    subst hm
    simp [sendCalls, hl]
  · intro hm hl
    simp only at hm
    subst hm
    simp [sendCalls, hl]
  · intro hm
    simp only at hm
    subst hm
    simp [sendCalls]
  · intro v hv hl
    cases m <;> cases v <;> simp_all [sendCalls, swo_coding_e.variant]

/-- Instance of amended C9: both encodings built in, mode `swo_manchester`,
`swo_send_buffer(7, 1)` forwards exactly `swo_manchester_send_buffer(7, 1)`. -/
theorem swo_send_buffer_forwarding_witness :
    (State.mk swo_coding_e.swo_manchester []).swo_current_mode = swo_coding_e.swo_manchester
      ∧ licenses 3 Variant.manchester = true
      ∧ emitted (swo_send_buffer ⟨3, fun _ => 0⟩ 7 1) ⟨swo_coding_e.swo_manchester, []⟩
          = [Event.swo_manchester_send_buffer 7 1] :=
  ⟨rfl, rfl,
    (swo_send_buffer_forwarding ⟨3, fun _ => 0⟩ ⟨swo_coding_e.swo_manchester, []⟩ 7 1).1 rfl rfl⟩

/-- C10 (NRZ/UART start).  In a build that licenses NRZ/UART, for every state,
baud rate and mask, `swo_init(swo_nrz_uart, baud, mask)` performs first the
spin-down (deinit calls and the write of `swo_none` only) and then exactly
`swo_uart_init(baud, mask)`, the query `swo_uart_get_baudrate`, one `gdb_outf`
line carrying the value the query returned (the value the environment gives at
that moment, whatever baud rate was requested), and the write of the mode.  In a
both-build (`SWO_ENCODING = 3`) with mode `swo_manchester` the calls are
`swo_manchester_deinit`, `swo_uart_init(baud, mask)`, the query, the log line. -/
theorem swo_init_nrz_uart_start (env : Env) (s : State) (baud mask : Nat)
    (h : licenses env.SWO_ENCODING Variant.nrz_uart = true) :
    (∃ stop,
        (∀ e ∈ stop, e = Event.swo_manchester_deinit ∨ e = Event.swo_uart_deinit
          ∨ e = Event.write_mode swo_coding_e.swo_none)
        ∧ emitted (swo_init env swo_coding_e.swo_nrz_uart baud mask) s
          = stop ++
            [Event.swo_uart_init baud mask,
             Event.swo_uart_get_baudrate
               (env.swo_uart_get_baudrate (s.trace ++ stop ++ [Event.swo_uart_init baud mask])),
             Event.gdb_outf
               (env.swo_uart_get_baudrate (s.trace ++ stop ++ [Event.swo_uart_init baud mask])),
             Event.write_mode swo_coding_e.swo_nrz_uart])
      ∧ (env.SWO_ENCODING = 3 → s.swo_current_mode = swo_coding_e.swo_manchester →
          calls (emitted (swo_init env swo_coding_e.swo_nrz_uart baud mask) s)
            = [Event.swo_manchester_deinit,
               Event.swo_uart_init baud mask,
               Event.swo_uart_get_baudrate
                 (env.swo_uart_get_baudrate (s.trace ++ [Event.swo_manchester_deinit,
                   Event.write_mode swo_coding_e.swo_none, Event.swo_uart_init baud mask])),
               Event.gdb_outf
                 (env.swo_uart_get_baudrate (s.trace ++ [Event.swo_manchester_deinit,
                   Event.write_mode swo_coding_e.swo_none, Event.swo_uart_init baud mask]))]) := by
  rw [emitted_eq _ _ _ (swo_init_trace env swo_coding_e.swo_nrz_uart baud mask s)]
  refine ⟨⟨stopEvents env.SWO_ENCODING s.swo_current_mode, ?_, ?_⟩, ?_⟩
  · obtain ⟨m, t⟩ := s
    cases m <;> cases hl : licenses env.SWO_ENCODING Variant.manchester <;>
      simp [stopEvents, deinitCalls, swo_coding_e.variant, Variant.deinit, hl, h]
  · simp [startEvents, h]
  · intro h3 hm
    obtain ⟨m, t⟩ := s
    simp only at hm
    subst hm
    simp [stopEvents, startEvents, deinitCalls, swo_coding_e.variant, Variant.deinit, licenses,
      h3, calls]

/-- Instance of C10: both encodings built in, Manchester active,
`swo_init(swo_nrz_uart, 115200, 0x01)`, with a UART implementation that reports
115384 as the negotiated rate.  The log line carries 115384, not 115200. -/
theorem swo_init_nrz_uart_start_witness :
    licenses 3 Variant.nrz_uart = true
      ∧ calls (emitted (swo_init ⟨3, fun _ => 115384⟩ swo_coding_e.swo_nrz_uart 115200 1)
          ⟨swo_coding_e.swo_manchester, []⟩)
        = [Event.swo_manchester_deinit, Event.swo_uart_init 115200 1,
           Event.swo_uart_get_baudrate 115384, Event.gdb_outf 115384] :=
  ⟨rfl,
    (swo_init_nrz_uart_start ⟨3, fun _ => 115384⟩ ⟨swo_coding_e.swo_manchester, []⟩ 115200 1
      rfl).2 rfl rfl⟩

/-- C11 (Manchester start).  In a build that licenses Manchester, for every baud
rate and mask, `swo_init(swo_manchester, baud, mask)` from mode `swo_none`
performs exactly `swo_manchester_init(mask)` and the write of the mode: one
Variant call, no NRZ/UART call and no log line; it ends in mode
`swo_manchester`; and the resulting trace and mode are the same for any other
baud rate. -/
theorem swo_init_manchester_start (env : Env) (t : List Event) (baud mask : Nat)
    (h : licenses env.SWO_ENCODING Variant.manchester = true) :
    emitted (swo_init env swo_coding_e.swo_manchester baud mask) ⟨swo_coding_e.swo_none, t⟩
        = [Event.swo_manchester_init mask, Event.write_mode swo_coding_e.swo_manchester]
      ∧ variantCalls (emitted (swo_init env swo_coding_e.swo_manchester baud mask)
          ⟨swo_coding_e.swo_none, t⟩) = [Event.swo_manchester_init mask]
      ∧ calls (emitted (swo_init env swo_coding_e.swo_manchester baud mask)
          ⟨swo_coding_e.swo_none, t⟩) = [Event.swo_manchester_init mask]
      ∧ (swo_init env swo_coding_e.swo_manchester baud mask
          ⟨swo_coding_e.swo_none, t⟩).swo_current_mode = swo_coding_e.swo_manchester
      ∧ (∀ baud2,
          (swo_init env swo_coding_e.swo_manchester baud2 mask ⟨swo_coding_e.swo_none, t⟩).trace
              = (swo_init env swo_coding_e.swo_manchester baud mask
                  ⟨swo_coding_e.swo_none, t⟩).trace
            ∧ (swo_init env swo_coding_e.swo_manchester baud2 mask
                ⟨swo_coding_e.swo_none, t⟩).swo_current_mode
              = (swo_init env swo_coding_e.swo_manchester baud mask
                  ⟨swo_coding_e.swo_none, t⟩).swo_current_mode) := by
  have he : ∀ b, emitted (swo_init env swo_coding_e.swo_manchester b mask)
      ⟨swo_coding_e.swo_none, t⟩
      = [Event.swo_manchester_init mask, Event.write_mode swo_coding_e.swo_manchester] := by
    intro b
    rw [emitted_eq _ _ _ (swo_init_trace _ _ _ _ _)]
    simp [stopEvents, startEvents, h]
  refine ⟨he baud, ?_, ?_, swo_init_mode _ _ _ _ _, fun baud2 => ⟨?_, ?_⟩⟩
  · rw [he baud]
    simp [variantCalls, Event.variant]
  · rw [he baud]
    simp [calls]
  · rw [swo_init_trace, swo_init_trace]
    simp [startEvents]
  · rw [swo_init_mode, swo_init_mode]

/-- Instance of C11: both encodings built in, `swo_init(swo_manchester, 0, 0xFF)`
from boot.  The calls are exactly `swo_manchester_init(0xFF)`. -/
theorem swo_init_manchester_start_witness :
    licenses 3 Variant.manchester = true
      ∧ calls (emitted (swo_init ⟨3, fun _ => 0⟩ swo_coding_e.swo_manchester 0 255)
          ⟨swo_coding_e.swo_none, []⟩) = [Event.swo_manchester_init 255]
      ∧ (swo_init ⟨3, fun _ => 0⟩ swo_coding_e.swo_manchester 0 255
          ⟨swo_coding_e.swo_none, []⟩).swo_current_mode = swo_coding_e.swo_manchester :=
  ⟨rfl,
    (swo_init_manchester_start ⟨3, fun _ => 0⟩ [] 0 255 rfl).2.2.1,
    (swo_init_manchester_start ⟨3, fun _ => 0⟩ [] 0 255 rfl).2.2.2.1⟩

/-- C12 (stop dispatch).  For every build and every state: when the mode names a
Variant the build licenses, `swo_deinit` performs exactly the deinit of that
Variant and then the write of `swo_none`; when the mode is `swo_none` or names
a Variant the build does not license, it performs the write only, no call; and
in all cases the mode afterwards is `swo_none`. -/
theorem swo_deinit_dispatch (env : Env) (s : State) :
    (∀ v, s.swo_current_mode.variant = some v → licenses env.SWO_ENCODING v = true →
        emitted (swo_deinit env) s = [v.deinit, Event.write_mode swo_coding_e.swo_none]
          ∧ calls (emitted (swo_deinit env) s) = [v.deinit])
      ∧ (∀ v, s.swo_current_mode.variant = some v → licenses env.SWO_ENCODING v = false →
        emitted (swo_deinit env) s = [Event.write_mode swo_coding_e.swo_none]
          ∧ calls (emitted (swo_deinit env) s) = [])
      ∧ (s.swo_current_mode = swo_coding_e.swo_none →
        emitted (swo_deinit env) s = [Event.write_mode swo_coding_e.swo_none]
          ∧ calls (emitted (swo_deinit env) s) = [])
      ∧ (swo_deinit env s).swo_current_mode = swo_coding_e.swo_none := by
  rw [emitted_eq _ _ _ (swo_deinit_trace env s)]
  obtain ⟨m, t⟩ := s
  refine ⟨?_, ?_, ?_, swo_deinit_mode env _⟩
  · intro v hv hl
    cases m <;> cases v <;>
      simp_all [deinitCalls, swo_coding_e.variant, Variant.deinit, calls]
  · intro v hv hl
    cases m <;> cases v <;>
      simp_all [deinitCalls, swo_coding_e.variant, Variant.deinit, calls]
  · intro hm
    simp only at hm
    subst hm
    simp [deinitCalls, swo_coding_e.variant, calls]

/-- Instance of C12: a UART-only build with UART active.  `swo_deinit` calls
exactly `swo_uart_deinit`. -/
theorem swo_deinit_dispatch_witness :
    (State.mk swo_coding_e.swo_nrz_uart []).swo_current_mode.variant = some Variant.nrz_uart
      ∧ licenses 2 Variant.nrz_uart = true
      ∧ calls (emitted (swo_deinit ⟨2, fun _ => 0⟩) ⟨swo_coding_e.swo_nrz_uart, []⟩)
          = [Event.swo_uart_deinit] :=
  ⟨rfl, rfl,
    ((swo_deinit_dispatch ⟨2, fun _ => 0⟩ ⟨swo_coding_e.swo_nrz_uart, []⟩).1
      Variant.nrz_uart rfl rfl).2⟩

/-- C13 (mode is written last).  With writes to `swo_current_mode` recorded in
the same trace as the calls, for every build, prior state and arguments: the
last event `swo_init` performs is the write of the requested mode, the last
event `swo_deinit` performs is the write of `swo_none`, and in both traces every
Variant init or deinit call has the write of the mode it establishes after it
and no such write before it. -/
theorem mode_written_last (env : Env) (s : State) (r : swo_coding_e) (baud mask : Nat) :
    (emitted (swo_init env r baud mask) s).getLast? = some (Event.write_mode r)
      ∧ (emitted (swo_deinit env) s).getLast? = some (Event.write_mode swo_coding_e.swo_none)
      ∧ (∀ pre e suf m, emitted (swo_init env r baud mask) s = pre ++ e :: suf →
          e.establishes = some m →
          Event.write_mode m ∉ pre ∧ Event.write_mode m ∈ suf)
      ∧ (∀ pre e suf m, emitted (swo_deinit env) s = pre ++ e :: suf →
          e.establishes = some m →
          Event.write_mode m ∉ pre ∧ Event.write_mode m ∈ suf) := by
  refine ⟨?_, ?_, ?_, ?_⟩
  · rw [emitted_eq _ _ _ (swo_init_trace env r baud mask s), ← List.append_assoc,
      List.getLast?_append]
    simp
  · rw [emitted_eq _ _ _ (swo_deinit_trace env s), List.getLast?_append]
    simp
  · intro pre e suf m hsplit hm
    simpa using writtenAfter_swo_init env s r baud mask pre e suf m hsplit hm
  · intro pre e suf m hsplit hm
    simpa using writtenAfter_swo_deinit env s pre e suf m hsplit hm

/-- Instance of C13: both encodings built in, Manchester active,
`swo_init(swo_nrz_uart, 115200, 0x01)`.  The trace ends with the write of
`swo_nrz_uart`, and `swo_uart_init` has that write after it and not before. -/
theorem mode_written_last_witness :
    (emitted (swo_init ⟨3, fun _ => 115200⟩ swo_coding_e.swo_nrz_uart 115200 1)
        ⟨swo_coding_e.swo_manchester, []⟩).getLast?
        = some (Event.write_mode swo_coding_e.swo_nrz_uart)
      ∧ Event.write_mode swo_coding_e.swo_nrz_uart
          ∉ [Event.swo_manchester_deinit, Event.write_mode swo_coding_e.swo_none]
      ∧ Event.write_mode swo_coding_e.swo_nrz_uart
          ∈ [Event.swo_uart_get_baudrate 115200, Event.gdb_outf 115200,
             Event.write_mode swo_coding_e.swo_nrz_uart] :=
  ⟨(mode_written_last ⟨3, fun _ => 115200⟩ ⟨swo_coding_e.swo_manchester, []⟩
      swo_coding_e.swo_nrz_uart 115200 1).1,
    (mode_written_last ⟨3, fun _ => 115200⟩ ⟨swo_coding_e.swo_manchester, []⟩
      swo_coding_e.swo_nrz_uart 115200 1).2.2.1
      [Event.swo_manchester_deinit, Event.write_mode swo_coding_e.swo_none]
      (Event.swo_uart_init 115200 1)
      [Event.swo_uart_get_baudrate 115200, Event.gdb_outf 115200,
       Event.write_mode swo_coding_e.swo_nrz_uart]
      swo_coding_e.swo_nrz_uart (by decide) rfl⟩

/-- C14 (send-buffer leaves the mode alone).  For every build, every state and
every `dev` and `ep`: `swo_current_mode` after `swo_send_buffer(dev, ep)` equals
its value before, and the call performs no write to it.  Hence a sequence of
calls made of `swo_send_buffer` calls only leaves the mode as it was: a change
of mode needs a `swo_init` or a `swo_deinit`. -/
theorem swo_send_buffer_keeps_mode (env : Env) (s : State) (dev ep : Nat) :
    (swo_send_buffer env dev ep s).swo_current_mode = s.swo_current_mode
      ∧ (∀ m, Event.write_mode m ∉ emitted (swo_send_buffer env dev ep) s)
      ∧ (∀ cs : List Call, (∀ c ∈ cs, ∃ d p, c = Call.swo_send_buffer d p) →
          (runCalls env cs s).swo_current_mode = s.swo_current_mode) := by
  refine ⟨swo_send_buffer_mode env dev ep s, ?_, ?_⟩
  · intro m
    rw [emitted_eq _ _ _ (swo_send_buffer_trace env dev ep s)]
    obtain ⟨md, t⟩ := s
    cases md <;> cases hl : licenses env.SWO_ENCODING Variant.manchester <;>
      cases hl2 : licenses env.SWO_ENCODING Variant.nrz_uart <;>
      simp [sendCalls, hl, hl2]
  · intro cs
    induction cs generalizing s with
    | nil => intro _; rfl
    | cons c cs ih =>
      intro hcs
      obtain ⟨d, p, rfl⟩ := hcs c (by simp)
      have := ih (swo_send_buffer env d p s) (fun x hx => hcs x (by simp [hx]))
      simpa [runCalls, Call.run, swo_send_buffer_mode] using this

/-- Instance of C14: both encodings built in, Manchester active; two
`swo_send_buffer` calls in a row leave the mode `swo_manchester`. -/
theorem swo_send_buffer_keeps_mode_witness :
    (runCalls ⟨3, fun _ => 0⟩ [Call.swo_send_buffer 7 1, Call.swo_send_buffer 7 2]
        ⟨swo_coding_e.swo_manchester, []⟩).swo_current_mode = swo_coding_e.swo_manchester :=
  (swo_send_buffer_keeps_mode ⟨3, fun _ => 0⟩ ⟨swo_coding_e.swo_manchester, []⟩ 7 1).2.2
    [Call.swo_send_buffer 7 1, Call.swo_send_buffer 7 2]
    (by
      intro c hc
      simp only [List.mem_cons, List.mem_singleton, List.not_mem_nil, or_false] at hc
      rcases hc with rfl | rfl
      · exact ⟨7, 1, rfl⟩
      · exact ⟨7, 2, rfl⟩)

/-- C15 (restart is teardown and bring-up).  For every build, every mode `m`
naming a licensed Variant `v`, and every baud rate and mask: `swo_init(m, baud,
mask)` called while the mode is already `m` performs the deinit of `v`, the
write of `swo_none`, then the init of `v` with the new arguments, followed by
events that are neither an init nor a deinit, and it ends in mode `m`. -/
theorem swo_init_restart (env : Env) (s : State) (m : swo_coding_e) (v : Variant)
    (baud mask : Nat)
    (hs : s.swo_current_mode = m)
    (hv : m.variant = some v)
    (hl : licenses env.SWO_ENCODING v = true) :
    (∃ rest, emitted (swo_init env m baud mask) s
        = v.deinit :: Event.write_mode swo_coding_e.swo_none :: v.init baud mask :: rest
        ∧ ∀ e ∈ rest, e.establishes = none)
      ∧ (swo_init env m baud mask s).swo_current_mode = m := by
  refine ⟨?_, swo_init_mode env m baud mask s⟩
  rw [emitted_eq _ _ _ (swo_init_trace env m baud mask s)]
  obtain ⟨md, t⟩ := s
  simp only at hs
  subst hs
  cases md <;> cases v <;>
    simp_all [swo_coding_e.variant, stopEvents, startEvents, deinitCalls, Variant.deinit,
      Variant.init, Event.establishes]

/-- Instance of C15: both encodings built in, Manchester active with some mask,
`swo_init(swo_manchester, 0, 0xFF)` again. -/
theorem swo_init_restart_witness :
    (State.mk swo_coding_e.swo_manchester []).swo_current_mode = swo_coding_e.swo_manchester
      ∧ swo_coding_e.swo_manchester.variant = some Variant.manchester
      ∧ licenses 3 Variant.manchester = true
      ∧ (∃ rest, emitted (swo_init ⟨3, fun _ => 0⟩ swo_coding_e.swo_manchester 0 255)
          ⟨swo_coding_e.swo_manchester, []⟩
          = Event.swo_manchester_deinit :: Event.write_mode swo_coding_e.swo_none
              :: Event.swo_manchester_init 255 :: rest
          ∧ ∀ e ∈ rest, e.establishes = none)
      ∧ (swo_init ⟨3, fun _ => 0⟩ swo_coding_e.swo_manchester 0 255
          ⟨swo_coding_e.swo_manchester, []⟩).swo_current_mode = swo_coding_e.swo_manchester :=
  ⟨rfl, rfl, rfl,
    swo_init_restart ⟨3, fun _ => 0⟩ ⟨swo_coding_e.swo_manchester, []⟩
      swo_coding_e.swo_manchester Variant.manchester 0 255 rfl rfl rfl⟩

/-- C16 (`swo_init(swo_none, ..)` acts as `swo_deinit`).  For every build, every
prior state and every baud rate and mask, `swo_init(swo_none, baud, mask)` and
`swo_deinit()` perform the same Variant calls, indeed the same calls of any
kind, and both end in mode `swo_none`. -/
theorem swo_init_none_is_deinit (env : Env) (s : State) (baud mask : Nat) :
    variantCalls (emitted (swo_init env swo_coding_e.swo_none baud mask) s)
        = variantCalls (emitted (swo_deinit env) s)
      ∧ calls (emitted (swo_init env swo_coding_e.swo_none baud mask) s)
        = calls (emitted (swo_deinit env) s)
      ∧ (swo_init env swo_coding_e.swo_none baud mask s).swo_current_mode
        = (swo_deinit env s).swo_current_mode
      ∧ (swo_deinit env s).swo_current_mode = swo_coding_e.swo_none := by
  rw [emitted_eq _ _ _ (swo_init_trace env swo_coding_e.swo_none baud mask s),
    emitted_eq _ _ _ (swo_deinit_trace env s), swo_init_mode, swo_deinit_mode]
  obtain ⟨m, t⟩ := s
  refine ⟨?_, ?_, rfl, rfl⟩ <;>
    cases m <;> cases hl : licenses env.SWO_ENCODING Variant.manchester <;>
      cases hl2 : licenses env.SWO_ENCODING Variant.nrz_uart <;>
      simp [stopEvents, startEvents, deinitCalls, swo_coding_e.variant, Variant.deinit,
        variantCalls, calls, Event.variant, hl, hl2]

end Swo
